import Mathlib

/-!
# Verification of the scratch-vm core against its specification

Shallow embedding of the repository's value model (`src/interpreter/value.rs`),
instruction set (`src/interpreter/opcode.rs`), compiler
(`src/codegen.rs`, `src/blocks.rs`, `src/ast/project.rs`) and interpreter /
scheduler (`src/interpreter.rs`).

Modelling conventions:
* Rust `f64` numbers are modelled by `ℚ`.  The IEEE-754 bit level
  (rounding, infinities, NaN, shortest-round-trip printing) is outside the
  model; no claim verified here evaluates a coercion on a non-finite or
  rounded double.
* Machine integers (`u32`, `usize`) are modelled by `ℕ`; no verified claim
  exercises wraparound.
* Panics (`unwrap`, `panic!`, `unimplemented!`, `todo!`, failed `assert!`)
  are modelled by `Option.none` / a fallible result.
* `std::time::Instant` is modelled by a rational timestamp; every call of
  `Instant::now()` reads the next value of an explicit clock stream, which
  makes the scheduler's dependence on real time an explicit parameter.
* `Rc<ProcedureValue>` identity is modelled by the procedure's index in the
  program's `procedures` pool (the `Id` that `Program::register` assigns).
-/

namespace ScratchVM

/-! ## Values (`src/interpreter/value.rs`)

Rust ids (`Id<EventValue>`, `Id<ProcedureValue>`) are `usize` indices. -/

/-- The tagged runtime value (`enum Value` in `src/interpreter/value.rs`). -/
inductive Value where
  | string (s : String)
  | number (q : ℚ)
  | boolean (b : Bool)
  | returnLocation (n : ℕ)
  | event (id : ℕ)
  | procedure (id : ℕ)
  deriving DecidableEq, Repr

/-- `impl Default for Value`: the default value is the empty string. -/
def Value.defaultValue : Value := .string ""

/-- Digits accumulator: value of a list of decimal digit characters. -/
def digitsVal (ds : List Char) : ℕ :=
  ds.foldl (fun a c => 10 * a + (c.toNat - 48)) 0

/-- Model of Rust `<f64 as FromStr>::from_str` (used by
`Value::cast_number` via `string.parse()`), restricted to the finite
decimal grammar: `Sign? (Digit+ | Digit+ '.' Digit* | Digit* '.' Digit+) Exp?`
with `Exp ::= ('e'|'E') Sign? Digit+`.  The keywords `inf`, `infinity` and
`nan` (any case, optionally signed) parse to non-finite doubles in the
source; those results are outside the finite-number model and are mapped to
`none` here — no verified claim evaluates them. -/
def parseNum (s : String) : Option ℚ :=
  let cs := s.toList
  -- optional sign
  let signed : Bool × List Char :=
    match cs with
    | '+' :: rest => (false, rest)
    | '-' :: rest => (true, rest)
    | _ => (false, cs)
  let neg := signed.1
  let cs := signed.2
  let lower := cs.map Char.toLower
  if lower = "inf".toList ∨ lower = "infinity".toList ∨ lower = "nan".toList then
    none
  else
    let intDs := cs.takeWhile Char.isDigit
    let rest := cs.dropWhile Char.isDigit
    let fracParsed : Option (List Char) × List Char :=
      match rest with
      | '.' :: r => (some (r.takeWhile Char.isDigit), r.dropWhile Char.isDigit)
      | _ => (none, rest)
    let fracDs := fracParsed.1
    let rest := fracParsed.2
    -- the mantissa needs at least one digit: `Digit+ ('.' Digit*)?` or `'.' Digit+`
    let mantissaOk : Bool :=
      match fracDs with
      | none => !intDs.isEmpty
      | some f => !intDs.isEmpty || !f.isEmpty
    if mantissaOk then
      let expParsed : Option (Option ℤ) × List Char :=
        match rest with
        | c :: r =>
          if c = 'e' ∨ c = 'E' then
            let esigned : Bool × List Char :=
              match r with
              | '+' :: r2 => (false, r2)
              | '-' :: r2 => (true, r2)
              | _ => (false, r)
            let eds := esigned.2.takeWhile Char.isDigit
            let r3 := esigned.2.dropWhile Char.isDigit
            if eds.isEmpty then (some none, r3)
            else
              (some (some (if esigned.1 then -(digitsVal eds : ℤ) else (digitsVal eds : ℤ))), r3)
          else (none, rest)
        | [] => (none, rest)
      let rest := expParsed.2
      match expParsed.1 with
      | some none => none  -- 'e' with no digits
      | eopt =>
        if rest.isEmpty then
          let fracLen := (fracDs.getD []).length
          let mantissa : ℚ :=
            (digitsVal intDs : ℚ) + (digitsVal (fracDs.getD []) : ℚ) / (10 ^ fracLen : ℚ)
          let e : ℤ := (eopt.getD none).getD 0
          let v : ℚ := mantissa * (10 : ℚ) ^ e
          some (if neg then -v else v)
        else none
    else none

/-- Model of Rust `f64`'s `Display` used by `Value::cast_string` on
`Number`.  The source uses the platform's shortest-round-trip
double-to-string conversion, which is bit-level floating point and outside
this model; integers print exactly as in the source, and no verified claim
evaluates this function on a non-integer. -/
def numToString (q : ℚ) : String :=
  if q.den = 1 then toString q.num else toString q

/-- `Value::cast_string` (`src/interpreter/value.rs:22-29`): String passes
through; Number is formatted; Boolean maps to `"true"`/`"false"`; any other
tag hits `unimplemented!` (modelled as `none`). -/
def Value.castString : Value → Option String
  | .string s => some s
  | .number q => some (numToString q)
  | .boolean b => some (if b then "true" else "false")
  | _ => none

/-- `Value::cast_number` (`src/interpreter/value.rs:31-38`): Number passes
through; String parses via `str::parse::<f64>()` with `unwrap_or(0.0)`;
Boolean maps to `1.0`/`0.0`; any other tag hits `unimplemented!`
(modelled as `none`). -/
def Value.castNumber : Value → Option ℚ
  | .number q => some q
  | .string s => some ((parseNum s).getD 0)
  | .boolean b => some (if b then 1 else 0)
  | _ => none

/-- `Value::cast_boolean` (`src/interpreter/value.rs:40-47`): Boolean passes
through; a String is `true` iff non-empty; a Number is `true` iff nonzero;
any other tag hits `unimplemented!` (modelled as `none`). -/
def Value.castBoolean : Value → Option Bool
  | .boolean b => some b
  | .string s => some (!s.isEmpty)
  | .number q => some (decide (q ≠ 0))
  | _ => none

/-- The `to_boolean ∘ to_string` round trip on a boolean value, as the
spec's law reads it: stringify `Boolean b`, then coerce the resulting
string back to a boolean. -/
def boolRoundTrip (b : Bool) : Option Bool :=
  (Value.castString (.boolean b)).bind fun s => Value.castBoolean (.string s)

/-! ## Instruction set (`src/interpreter/opcode.rs`)

The snapshot's `enum Opcode` in `src/interpreter/opcode.rs` declares the 25
variants transcribed in `opcodeEnumVariants` below; it does **not** declare
`ChangeVar` or `Sleep`, although `src/codegen.rs:197` emits
`Opcode::ChangeVar`, `src/blocks.rs:203` emits `Opcode::Sleep`, and
`src/interpreter.rs:441,455` match on both.  The executable model therefore
uses the opcode type `Op` below, which contains every variant the compiler
and interpreter actually use; `opcodeEnumVariants` separately transcribes
the enum declaration as written, so that the discrepancy can be stated. -/

/-- Opcodes used by the compiler and interpreter (the `opcode.rs` enum plus
the `ChangeVar` and `Sleep` variants that `codegen.rs`, `blocks.rs` and
`interpreter.rs` reference but the enum omits). -/
inductive Op where
  | DoNothing
  | PushVar | SetVar | DecVar | ZeroVar | ClearVar
  | PushLocal | SetLocal | DecLocal | ZeroLocal | ClearLocal
  | PushZero | PushConstant | PushUInt32 | PushNumber
  | Add
  | GreaterThan
  | DispatchEvent | CallBuiltin | CallProcedure
  | Jump | JumpIfTrue | JumpIfFalse | Return | Yield
  | ChangeVar | Sleep
  deriving DecidableEq, Repr

/-- The variant names of `enum Opcode` exactly as declared in
`src/interpreter/opcode.rs` lines 7-39, in declaration order. -/
def opcodeEnumVariants : List String :=
  ["DoNothing",
   "PushVar", "SetVar", "DecVar", "ZeroVar", "ClearVar",
   "PushLocal", "SetLocal", "DecLocal", "ZeroLocal", "ClearLocal",
   "PushZero", "PushConstant", "PushUInt32", "PushNumber",
   "Add",
   "GreaterThan",
   "DispatchEvent", "CallBuiltin", "CallProcedure",
   "Jump", "JumpIfTrue", "JumpIfFalse", "Return", "Yield"]

/-- Opcode names referenced as `Opcode::<name>` by the rest of the
repository: the arms of `Task::run_opcode` (`src/interpreter.rs`) together
with the opcodes written by `ScriptCompiler` (`src/codegen.rs`) and the
block lowerings (`src/blocks.rs`). -/
def referencedOpcodeNames : List String :=
  ["PushConstant", "PushZero", "PushNumber", "PushUInt32",
   "DispatchEvent", "CallBuiltin", "CallProcedure",
   "Jump", "JumpIfTrue", "JumpIfFalse", "Return", "Yield", "Sleep",
   "SetVar", "ChangeVar", "ClearVar", "ZeroVar", "PushVar",
   "SetLocal", "PushLocal", "DecLocal",
   "Add", "GreaterThan"]

/-- One 32-bit word of the instruction buffer (`Vec<u32>` /
`Box<[u32]>` in the source).  `.op` words are opcode discriminants, `.imm`
words raw `u32` immediates.  A `PushNumber` payload is two words holding
the little-endian halves of an `f64`'s bits; the bit split is not modelled,
so the two payload words are `.flo q false` (low half) and `.flo q true`
(high half), which keeps every word offset identical to the source. -/
inductive Word where
  | op (o : Op)
  | imm (n : ℕ)
  | flo (q : ℚ) (hi : Bool)
  deriving DecidableEq, Repr

/-- `u32::MAX`, the placeholder value `PlaceholderLabel::write` emits before
patching (`src/codegen.rs:437`). -/
def u32Max : ℕ := 4294967295

/-- Number of `Yield` opcode words in an instruction buffer. -/
def countYields (ws : List Word) : ℕ := ws.count (.op .Yield)

/-! ## Builtin ids (`BlockLibrary::default`, `src/blocks.rs:120-219`)

Registration assigns ids in insertion order:
`looks_say = 0`, `data_setvariableto = 1`, `data_changevariableby = 2`,
`control_forever = 3`, `control_repeat = 4`, `control_wait = 5`,
`operator_join = 6`. -/

def looksSayId : ℕ := 0
def operatorJoinId : ℕ := 6

/-! ## AST and compiler (`src/ast.rs`, `src/codegen.rs`, `src/blocks.rs`)

The source dispatches on string opcodes through the block library; any
opcode outside the default library panics (`unimplemented!`).  The model
closes the AST over exactly the default library's entries (statements
`looks_say`, `data_setvariableto`, `data_changevariableby`,
`control_forever`, `control_repeat`, `control_wait`; reporter
`operator_join`) plus the primitives of `Block::try_as_primitive`. -/

/-- `Primitive` (`src/ast.rs:300-310`).  `Integer` is `u64`, `WholeNumber`
is `i64` in the source; the `as f64` casts at lowering are modelled by the
exact coercions into `ℚ`. -/
inductive Prim where
  | text (s : String)
  | num (q : ℚ)
  | integer (n : ℕ)
  | whole (n : ℤ)
  | posnum (q : ℚ)
  | angle (q : ℚ)
  | varP (id : String)
  | eventP (id : String)
  deriving DecidableEq, Repr

/-- A value input: a single-block input used as an expression
(`StackRepresentable for &Input`, `src/codegen.rs:317-334`).  Either a
primitive or the one registered reporter, `operator_join`, whose declared
`inputs_order` is `[STRING1, STRING2]`. -/
inductive Inp where
  | prim (p : Prim)
  | joinB (s1 s2 : Inp)
  deriving DecidableEq, Repr

/-- A statement block of the default library.  Variables are referred to by
their id string (`VariableRef`); `say` is the runtime-only `looks_say`
carrying its single `MESSAGE` input (the default lowering pushes a
runtime-only block's inputs in key order and calls the builtin). -/
inductive Blk where
  | say (msg : Inp)
  | setvar (varId : String) (value : Inp)
  | changevar (varId : String) (value : Inp)
  | forever (substack : List Blk)
  | repeatB (times : Inp) (substack : List Blk)
  | wait (duration : Inp)
  deriving Repr

/-- `TargetCodegenContext` (`src/codegen.rs:276-311`): an insertion-ordered
variable map (project globals first, then sprite variables) and the
project's frozen text-constant pool.  Handles are `IndexMap`/`IndexSet`
indices; the model keeps the key lists in insertion order. -/
structure TargetCtx where
  varIds : List String
  textConsts : List String
  deriving DecidableEq, Repr

/-- `TargetCodegenContext::var`: index of a variable id in the ordered map;
`expect("unknown variable")` is modelled by `none`. -/
def TargetCtx.var (c : TargetCtx) (id : String) : Option ℕ :=
  c.varIds.indexOf? id

/-- `ProjectContext::text`: index of an interned text constant;
`expect("Text missing from context pool")` is modelled by `none`. -/
def TargetCtx.text (c : TargetCtx) (s : String) : Option ℕ :=
  c.textConsts.indexOf? s

/-- `ScriptCompiler` (`src/codegen.rs:57-65`): the output buffer, the warp
flag, the parameter count and the local-slot table.  A `true` entry in
`locals` is a freed slot (`Some(())` in the source), `false` a claimed one
(`None`). -/
structure Compiler where
  data : List Word
  suppressYields : Bool
  numProcParams : ℕ
  locals : List Bool
  target : TargetCtx
  deriving DecidableEq, Repr

/-- `ScriptCompiler::new`: empty buffer, `num_proc_params` claimed local
slots. -/
def Compiler.init (target : TargetCtx) (suppressYields : Bool) (numProcParams : ℕ) :
    Compiler :=
  { data := [], suppressYields, numProcParams,
    locals := List.replicate numProcParams false, target }

/-- Append raw words to the output buffer (`write_op` / `write_imm` /
`write_u64`). -/
def Compiler.emit (c : Compiler) (ws : List Word) : Compiler :=
  { c with data := c.data ++ ws }

/-- `ScriptCompiler::claim_local`: reuse the lowest freed slot (and mark it
claimed), else append a new claimed slot. -/
def Compiler.claimLocal (c : Compiler) : ℕ × Compiler :=
  match c.locals.indexOf? true with
  | some i => (i, { c with locals := c.locals.set i false })
  | none => (c.locals.length, { c with locals := c.locals ++ [false] })

/-- `ScriptCompiler::release_local`: mark the slot freed. -/
def Compiler.releaseLocal (c : Compiler) (i : ℕ) : Compiler :=
  { c with locals := c.locals.set i true }

/-- `ScriptCompiler::build_yield` (`src/codegen.rs:165-169`): emit `Yield`
unless yields are suppressed. -/
def Compiler.buildYield (c : Compiler) : Compiler :=
  if c.suppressYields then c else c.emit [.op .Yield]

/-- `StackRepresentable for f64` (`src/codegen.rs:355-364`): `0.0` emits
`PushZero`, anything else `PushNumber` plus the two payload words. -/
def Compiler.buildPushNum (c : Compiler) (q : ℚ) : Compiler :=
  if q = 0 then c.emit [.op .PushZero]
  else c.emit [.op .PushNumber, .flo q false, .flo q true]

/-- `StackRepresentable for Primitive` (`src/codegen.rs:336-353`): text
emits `PushConstant`, numeric primitives go through the `f64` push,
variables emit `PushVar`, events panic. -/
def Compiler.buildPushPrim (c : Compiler) : Prim → Option Compiler
  | .text s => (c.target.text s).map fun h => c.emit [.op .PushConstant, .imm h]
  | .num q => some (c.buildPushNum q)
  | .posnum q => some (c.buildPushNum q)
  | .angle q => some (c.buildPushNum q)
  | .integer n => some (c.buildPushNum (n : ℚ))
  | .whole n => some (c.buildPushNum (n : ℚ))
  | .varP id => (c.target.var id).map fun h => c.emit [.op .PushVar, .imm h]
  | .eventP _ => none

/-- Push a value input (`StackRepresentable for &Input`): a primitive is
pushed directly, `operator_join` pushes `STRING1` then `STRING2` and calls
the builtin (`compile_runtime_only` with its declared `inputs_order`). -/
def compileInp (c : Compiler) : Inp → Option Compiler
  | .prim p => c.buildPushPrim p
  | .joinB a b => do
    let c ← compileInp c a
    let c ← compileInp c b
    some (c.emit [.op .CallBuiltin, .imm operatorJoinId])

mutual

/-- Lower one statement block (`BlockType::compile` dispatching into the
default library's `compile_logic` closures, `src/blocks.rs:120-219`, or the
runtime-only default `compile_runtime_only` for `looks_say`). -/
def compileBlk (c : Compiler) : Blk → Option Compiler
  -- `looks_say` is runtime-only: push its inputs (here the single
  -- `MESSAGE` input), then `CallBuiltin 0`; it declares no fields.
  | .say msg => do
    let c ← compileInp c msg
    some (c.emit [.op .CallBuiltin, .imm looksSayId])
  -- `data_setvariableto`: `build_set_var` (push VALUE; `SetVar handle`),
  -- then `build_yield`.
  | .setvar varId value => do
    let h ← c.target.var varId
    let c ← compileInp c value
    some ((c.emit [.op .SetVar, .imm h]).buildYield)
  -- `data_changevariableby`: `build_change_var` (push VALUE;
  -- `ChangeVar handle`), then `build_yield`.
  | .changevar varId value => do
    let h ← c.target.var varId
    let c ← compileInp c value
    some ((c.emit [.op .ChangeVar, .imm h]).buildYield)
  -- `control_forever`: mark the loop head, lower SUBSTACK, jump back.
  | .forever substack => do
    let l := c.data.length
    let c ← compileSubstack c substack
    some (c.emit [.op .Jump, .imm l])
  -- `control_repeat` (`src/blocks.rs:165-195`): claim a counter local,
  -- initialize it from TIMES, then loop: compare `counter > 0`,
  -- `JumpIfFalse` to a placeholder end label (written as `u32::MAX` and
  -- patched by `finalize_here`), decrement, lower SUBSTACK, jump back,
  -- patch the end label to the current offset, release the local.
  | .repeatB times substack => do
    let (counter, c) := c.claimLocal
    -- `build_set_local(counter, times)`: push TIMES, then `SetLocal`.
    let c ← compileInp c times
    let c := c.emit [.op .SetLocal, .imm counter]
    let loopStart := c.data.length
    -- `build_cmp(counter, Greater, 0.0)`: push the local, push `0.0`
    -- (which is `PushZero`), then `GreaterThan`.
    let c := c.emit [.op .PushLocal, .imm counter, .op .PushZero, .op .GreaterThan]
    -- `build_jump_if(false, loop_end)`: the immediate slot position is
    -- recorded in the placeholder's pending usages.
    let patchPos := c.data.length + 1
    let c := c.emit [.op .JumpIfFalse, .imm u32Max]
    let c := c.emit [.op .DecLocal, .imm counter]
    let c ← compileSubstack c substack
    let c := c.emit [.op .Jump, .imm loopStart]
    -- `commit_placeholder(loop_end)`: patch the recorded slot with the
    -- current offset.
    let c := { c with data := c.data.set patchPos (.imm c.data.length) }
    some (c.releaseLocal counter)
  -- `control_wait`: push DURATION, then `Sleep`.
  | .wait duration => do
    let c ← compileInp c duration
    some (c.emit [.op .Sleep])

/-- The loop body of `ScriptCompiler::compile_substack`: lower each block
in order. -/
def compileBlkList (c : Compiler) : List Blk → Option Compiler
  | [] => some c
  | b :: rest => do
    let c ← compileBlk c b
    compileBlkList c rest

/-- `ScriptCompiler::compile_substack` (`src/codegen.rs:89-97`): lower each
block in order; an empty substack emits a (suppressible) yield. -/
def compileSubstack (c : Compiler) : List Blk → Option Compiler
  | [] => some c.buildYield
  | b :: rest => do
    let c ← compileBlk c b
    compileBlkList c rest

end

/-- `ScriptCompiler::compile` (`src/codegen.rs:84-87`) on a fresh compiler,
as `ScratchProject::compile` invokes it (`src/ast/project.rs:86-88`):
lower the script's blocks as a substack, then emit `Return`. -/
def compileScript (target : TargetCtx) (suppressYields : Bool) (numProcParams : ℕ)
    (blocks : List Blk) : Option Compiler := do
  let c ← compileSubstack (Compiler.init target suppressYields numProcParams) blocks
  some (c.emit [.op .Return])

/-! ## Runtime data (`src/interpreter.rs`, `src/interpreter/value.rs`) -/

/-- `ProcedureValue` (`src/interpreter/value.rs:68-111`) as constructed by
`ScratchProject::compile` (`src/ast/project.rs:92-99`): name, owning
target, parameter count, local descriptors (each a `Local` with an
optional name), instruction buffer, and warp flag.  The snapshot's
`value.rs` declaration is missing the `target_id` and `warp` fields that
`project.rs` passes and `interpreter.rs` reads (`self.procedure.target_id`);
both are included here as the rest of the code requires them.  The
`ident : OnceCell<Id>` write-once cell is modelled by the procedure's index
in the program's `procedures` pool. -/
structure ProcedureValue where
  name : Option String
  targetId : ℕ
  paramCount : ℕ
  locals : List (Option String)
  bytecode : List Word
  warp : Bool
  deriving DecidableEq, Repr

/-- `Trigger` (`src/interpreter/opcode.rs:50-54`). -/
inductive Trigger where
  | onStart
  | event (id : ℕ)
  deriving DecidableEq, Repr

/-- `Task` (`src/interpreter.rs:196-204`).  The operand stack and the
scope stack are Rust `Vec`s pushed/popped at the end; both are modelled as
lists whose **head** is the top.  `wake_time : Instant` is a rational
timestamp. -/
structure Task where
  procId : ℕ
  location : ℕ
  scopes : List (List Value)
  stack : List Value
  complete : Bool
  wakeTime : ℚ
  deriving DecidableEq, Repr

/-- `VarState` (`src/interpreter/value.rs:128-141`): a named mutable value
cell. -/
structure VarState where
  name : String
  value : Value
  deriving DecidableEq, Repr

/-- `Program` (`src/interpreter.rs:24-38`).  The `triggers` hash map is an
association list (each entry holds the handlers in registration order); the
runtime `builtins` library is a vector of arbitrary `FnMut` closures and is
not modelled (no verified claim executes `CallBuiltin`).  The sleeper heap
is kept as a list of tasks; `run_frame` pushes at the end and
`wake_sleepers` removes minimal-`wakeTime` entries. -/
structure Program where
  constants : List Value
  globalVars : List VarState
  procedures : List ProcedureValue
  events : List String
  triggers : List (Trigger × List ℕ)
  targets : List (List VarState)
  taskQueue : List Task
  sleepers : List Task
  deriving DecidableEq, Repr

/-- A clock: the stream of values returned by successive `Instant::now()`
calls, with the index of the next call.  Real time is external
nondeterminism; theorems quantify over (or instantiate) the stream. -/
structure Clk where
  stream : ℕ → ℚ
  next : ℕ

/-- Read `Instant::now()` once. -/
def Clk.now (c : Clk) : ℚ × Clk := (c.stream c.next, { c with next := c.next + 1 })

/-- One nanosecond (`Duration::from_nanos(1)`) in seconds. -/
def nanosecond : ℚ := 1 / 1000000000

/-- `Task::new` (`src/interpreter.rs:207-219`).  The source takes the
procedure's `Rc` and `assert_eq!(procedure.param_count, 0)`; the model
resolves the id in the program's pool and returns `none` when the
assertion would fail.  The fresh scope holds one default value per local
descriptor; `wake_time` is `Instant::now()`. -/
def Program.taskNew (p : Program) (procId : ℕ) (now : ℚ) : Option Task := do
  let proc ← p.procedures[procId]?
  if proc.paramCount = 0 then
    some { procId, location := 0,
           scopes := [List.replicate proc.locals.length Value.defaultValue],
           stack := [], complete := false, wakeTime := now }
  else none

/-- `Program::dispatch` (`src/interpreter.rs:87-95`): look the trigger up
in the map (defaulting to no handlers), build one fresh `Task::new` per
handler procedure in order, and append them to the task queue.
`Task::new`'s `Instant::now()` consumes one clock value per task. -/
def Program.dispatch (p : Program) (clk : Clk) (trigger : Trigger) :
    Option (Program × Clk) := do
  let handlers := ((p.triggers.lookup trigger).getD [])
  let rec go (p : Program) (clk : Clk) : List ℕ → Option (Program × Clk)
    | [] => some (p, clk)
    | h :: rest => do
      let (now, clk) := clk.now
      let t ← p.taskNew h now
      go { p with taskQueue := p.taskQueue ++ [t] } clk rest
  go p clk handlers

/-- `Program::read_var` (`src/interpreter.rs:169-178`): ids below
`global_vars.len()` index the globals, larger ids index the target's own
variables at `id - globals.len()`.  Out-of-range indexing panics
(`none`). -/
def Program.readVar (p : Program) (targetId : ℕ) (id : ℕ) : Option Value := do
  let target ← p.targets[targetId]?
  if h : id < p.globalVars.length then
    some (p.globalVars.get ⟨id, h⟩).value
  else
    (target[id - p.globalVars.length]?).map VarState.value

/-- `Program::with_var` / `set_var` (`src/interpreter.rs:180-193`): apply
an update function to the addressed cell. -/
def Program.withVar (p : Program) (targetId : ℕ) (id : ℕ) (f : Value → Value) :
    Option Program := do
  let target ← p.targets[targetId]?
  if h : id < p.globalVars.length then
    let old := (p.globalVars.get ⟨id, h⟩)
    some { p with globalVars := p.globalVars.set id { old with value := f old.value } }
  else
    let idx := id - p.globalVars.length
    let old ← target[idx]?
    some { p with
           targets := p.targets.set targetId (target.set idx { old with value := f old.value }) }

/-- `Program::set_var`. -/
def Program.setVar (p : Program) (targetId : ℕ) (id : ℕ) (v : Value) : Option Program :=
  p.withVar targetId id (fun _ => v)

/-- `Task::read_immediate` (`src/interpreter.rs:288-292`): read the word at
the instruction pointer and advance.  In the source every word is a raw
`u32`; in the word-typed model an immediate read requires an `.imm` word
(no verified claim decodes misaligned bytecode). -/
def Task.readImm (proc : ProcedureValue) (t : Task) : Option (ℕ × Task) :=
  match proc.bytecode[t.location]? with
  | some (.imm n) => some (n, { t with location := t.location + 1 })
  | _ => none

/-- `Task::read_local` (`src/interpreter.rs:278-281`): index the top scope
(panics on a missing scope or slot). -/
def Task.readLocal (t : Task) (idx : ℕ) : Option Value := do
  let scope ← t.scopes.head?
  scope[idx]?

/-- `Task::set_local` (`src/interpreter.rs:283-286`). -/
def Task.setLocal (t : Task) (idx : ℕ) (v : Value) : Option Task := do
  let scope ← t.scopes.head?
  if idx < scope.length then
    some { t with scopes := scope.set idx v :: t.scopes.tail }
  else none

/-- `Task::run_opcode` (`src/interpreter.rs:319-517`).  Returns the updated
program, task and clock plus the `did_yield` flag; `none` models a panic
(`unwrap` on an empty stack, an out-of-range handle, a coercion
`unimplemented!`, the `todo!` arm for `DoNothing`/`DecVar`/`ZeroLocal`/
`ClearLocal`, …).  The `CallBuiltin` arm invokes an arbitrary `FnMut`
closure from the runtime library and is outside the model (`none`); the
debug `println!` calls are not modelled. -/
def Task.runOpcode (p : Program) (t : Task) (clk : Clk) :
    Option (Program × Task × Clk × Bool) := do
  let proc ← p.procedures[t.procId]?
  let opw ← proc.bytecode[t.location]?
  let t := { t with location := t.location + 1 }
  match opw with
  | .imm _ | .flo _ _ => none
  | .op o =>
    match o with
    | .PushConstant => do
      let (imm, t) ← t.readImm proc
      let constant ← p.constants[imm]?
      some (p, { t with stack := constant :: t.stack }, clk, false)
    | .PushZero =>
      some (p, { t with stack := .number 0 :: t.stack }, clk, false)
    | .PushNumber =>
      -- two `read_immediate` calls collect the f64's little-endian halves
      match (proc.bytecode[t.location]? : Option Word),
            (proc.bytecode[t.location + 1]? : Option Word) with
      | some (.flo q false), some (.flo q' true) =>
        if q = q' then
          some (p, { t with location := t.location + 2, stack := .number q :: t.stack },
                clk, false)
        else none
      | _, _ => none
    | .PushUInt32 => do
      let (imm, t) ← t.readImm proc
      some (p, { t with stack := .number (imm : ℚ) :: t.stack }, clk, false)
    | .DispatchEvent => do
      let (imm, t) ← t.readImm proc
      let (p, clk) ← p.dispatch clk (.event imm)
      some (p, t, clk, true)
    | .CallBuiltin => none
    | .CallProcedure => do
      let (procId, t) ← t.readImm proc
      let procedure ← p.procedures[procId]?
      -- pop `param_count` arguments one at a time (stack top becomes
      -- local 0), then pad with default values up to `locals.len()`
      if procedure.paramCount ≤ t.stack.length then
        let scope := t.stack.take procedure.paramCount ++
          List.replicate (procedure.locals.length - procedure.paramCount) Value.defaultValue
        -- save the return location and the caller procedure as values
        -- (the source `extend`s, so the caller handle ends up on top)
        let stack := Value.procedure t.procId :: Value.returnLocation t.location ::
          t.stack.drop procedure.paramCount
        -- switch contexts
        some (p, { t with location := 0, procId := procId,
                          stack, scopes := scope :: t.scopes }, clk, false)
      else none
    | .Jump => do
      let (imm, t) ← t.readImm proc
      some (p, { t with location := imm }, clk, false)
    | .JumpIfTrue => do
      let (imm, t) ← t.readImm proc
      match t.stack with
      | [] => none
      | condition :: rest => do
        let b ← condition.castBoolean
        some (p, { t with stack := rest, location := if b then imm else t.location },
              clk, false)
    | .JumpIfFalse => do
      let (imm, t) ← t.readImm proc
      match t.stack with
      | [] => none
      | condition :: rest => do
        let b ← condition.castBoolean
        some (p, { t with stack := rest, location := if b then t.location else imm },
              clk, false)
    | .Return =>
      match t.stack with
      | [] =>
        -- returning from the root procedure
        some (p, { t with complete := true }, clk, true)
      | procedureId :: rest =>
        match procedureId with
        | .procedure id => do
          -- restore context from the stack
          let t := { t with stack := rest, scopes := t.scopes.tail }
          let _ ← p.procedures[id]?
          match t.stack with
          | .returnLocation loc :: rest' =>
            some (p, { t with procId := id, location := loc, stack := rest' }, clk, false)
          | _ => none
        | _ => none
    | .Yield => some (p, t, clk, true)
    | .Sleep =>
      match t.stack with
      | [] => none
      | v :: rest => do
        let secs ← v.castNumber
        -- `Duration::from_secs_f64` panics on a negative duration
        if 0 ≤ secs then
          let (now, clk) := clk.now
          some (p, { t with stack := rest, wakeTime := now + secs }, clk, true)
        else none
    | .SetVar =>
      match t.stack with
      | [] => none
      | newValue :: rest => do
        let (id, t) ← t.readImm proc
        let p ← p.setVar proc.targetId id newValue
        some (p, { t with stack := rest }, clk, false)
    | .ChangeVar =>
      match t.stack with
      | [] => none
      | offset :: rest => do
        let (id, t) ← t.readImm proc
        -- `with_var` reads the cell, coerces both sides and writes back
        let old ← p.readVar proc.targetId id
        let ov ← old.castNumber
        let off ← offset.castNumber
        let p ← p.setVar proc.targetId id (.number (ov + off))
        some (p, { t with stack := rest }, clk, false)
    | .ClearVar => do
      let (id, t) ← t.readImm proc
      let p ← p.setVar proc.targetId id Value.defaultValue
      some (p, t, clk, false)
    | .ZeroVar => do
      let (id, t) ← t.readImm proc
      let p ← p.setVar proc.targetId id (.number 0)
      some (p, t, clk, false)
    | .PushVar => do
      let (id, t) ← t.readImm proc
      let v ← p.readVar proc.targetId id
      some (p, { t with stack := v :: t.stack }, clk, false)
    | .SetLocal => do
      let (idx, t) ← t.readImm proc
      match t.stack with
      | [] => none
      | v :: rest => do
        let t ← Task.setLocal { t with stack := rest } idx v
        some (p, t, clk, false)
    | .PushLocal => do
      let (idx, t) ← t.readImm proc
      let v ← t.readLocal idx
      some (p, { t with stack := v :: t.stack }, clk, false)
    | .DecLocal => do
      let (idx, t) ← t.readImm proc
      let old ← t.readLocal idx
      let oldNum ← old.castNumber
      let t ← t.setLocal idx (.number (oldNum - 1))
      some (p, t, clk, false)
    | .Add =>
      -- `pop_numbers::<2>` drains the two topmost values; `left` is the
      -- one pushed first (second from the top)
      match t.stack with
      | right :: left :: rest => do
        let l ← left.castNumber
        let r ← right.castNumber
        some (p, { t with stack := .number (l + r) :: rest }, clk, false)
      | _ => none
    | .GreaterThan =>
      match t.stack with
      | right :: left :: rest => do
        let l ← left.castNumber
        let r ← right.castNumber
        some (p, { t with stack := .boolean (decide (l > r)) :: rest }, clk, false)
      | _ => none
    | .DoNothing | .DecVar | .ZeroLocal | .ClearLocal => none

/-- The opcode loop of `Task::run_until_yield` (`src/interpreter.rs:307-316`):
run opcodes until one yields; reading past the end of the bytecode without
returning panics.  `fuel` bounds the number of iterations (the source loop
can diverge); exhausting it gives `none`, never a wrong result. -/
def Task.runLoop (fuel : ℕ) (p : Program) (t : Task) (clk : Clk) :
    Option (Program × Task × Clk) :=
  match fuel with
  | 0 => none
  | fuel + 1 => do
    let proc ← p.procedures[t.procId]?
    if t.location ≥ proc.bytecode.length then
      none  -- "Reached end of procedure bytecode without returning"
    else
      let (p, t, clk, didYield) ← t.runOpcode p clk
      if didYield then some (p, t, clk) else Task.runLoop fuel p t clk

/-- `Task::run_until_yield` (`src/interpreter.rs:302-317`): **first reset
`wake_time` to `Instant::now()`** ("send it to the back of the queue
because we are running it"), then run opcodes until a yield. -/
def Task.runUntilYield (fuel : ℕ) (p : Program) (t : Task) (clk : Clk) :
    Option (Program × Task × Clk) :=
  let (now, clk) := clk.now
  Task.runLoop fuel p { t with wakeTime := now } clk

/-- `Program::next_wake` (`src/interpreter.rs:105-109`): the minimal sleeper
wake time, or `Instant::now()` when the heap is empty (the heap's root is
its least element).  Consumes a clock value exactly when the heap is
empty. -/
def Program.nextWake (p : Program) (clk : Clk) : ℚ × Clk :=
  match p.sleepers.map Task.wakeTime with
  | [] => clk.now
  | w :: ws => (ws.foldl min w, clk)

/-- Remove the first task holding the minimal wake time (the binary heap's
pop; tie order among equal keys is unspecified in `BinaryHeap`, the model
takes the first-listed). -/
def popMinSleeper (ts : List Task) : Option (Task × List Task) :=
  match ts with
  | [] => none
  | t :: rest =>
    let m := (rest.map Task.wakeTime).foldl min t.wakeTime
    match ts.span (fun x => decide (x.wakeTime ≠ m)) with
    | (_, []) => none
    | (before, x :: after) => some (x, before ++ after)

/-- `Program::wake_sleepers` (`src/interpreter.rs:111-118`): pop every
sleeper whose wake time is `≤ now` onto the back of the ready queue, in
heap order. -/
def Program.wakeSleepers (fuel : ℕ) (p : Program) (now : ℚ) : Program :=
  match fuel with
  | 0 => p
  | fuel + 1 =>
    match popMinSleeper p.sleepers with
    | some (t, rest) =>
      if t.wakeTime ≤ now then
        Program.wakeSleepers fuel
          { p with sleepers := rest, taskQueue := p.taskQueue ++ [t] } now
      else p
    | none => p

/-- The drain loop of `Program::run_frame` (`src/interpreter.rs:135-147`):
pop the head task, reset its `wake_time` to `next_priority`, advance
`next_priority` by one nanosecond, run the task to its next yield, and
push it onto the sleeper heap unless it completed. -/
def Program.runQueue (fuel : ℕ) (p : Program) (clk : Clk) (nextPriority : ℚ) :
    Option (Program × Clk) :=
  match fuel with
  | 0 => none
  | fuel + 1 =>
    match p.taskQueue with
    | [] => some (p, clk)
    | task :: queue => do
      let p := { p with taskQueue := queue }
      let task := { task with wakeTime := nextPriority }
      let (p, task, clk) ← task.runUntilYield fuel p clk
      let p := if task.complete then p else { p with sleepers := p.sleepers ++ [task] }
      Program.runQueue fuel p clk (nextPriority + nanosecond)

/-- `Program::run_frame` (`src/interpreter.rs:123-148`): take
`frame_start = Instant::now()`, compute the next wake time, sleep the
wall-clock until it (no state effect), wake the due sleepers, then drain
the ready queue with the priority counter seeded at `frame_start`. -/
def Program.runFrame (fuel : ℕ) (p : Program) (clk : Clk) : Option (Program × Clk) :=
  let (frameStart, clk) := clk.now
  let (wakeTime, clk) := p.nextWake clk
  let p := p.wakeSleepers fuel wakeTime
  Program.runQueue fuel p clk frameStart

/-! ## Concrete instances used by counterexamples and witnesses -/

/-- A clock whose `i`-th `Instant::now()` reading is `i + 1` seconds:
time strictly advances between consecutive readings, as a real monotonic
clock does. -/
def tickClock : Clk := { stream := fun i => ((i + 1 : ℕ) : ℚ), next := 0 }

/-- A procedure that yields once and then returns. -/
def yieldProc : ProcedureValue :=
  { name := some "yielder", targetId := 0, paramCount := 0, locals := [],
    bytecode := [.op .Yield, .op .Return], warp := false }

/-- A program whose ready queue holds a single task running `yieldProc`. -/
def oneYielderProgram : Program :=
  { constants := [], globalVars := [], procedures := [yieldProc], events := [],
    triggers := [], targets := [[]],
    taskQueue := [{ procId := 0, location := 0, scopes := [[]], stack := [],
                    complete := false, wakeTime := 0 }],
    sleepers := [] }

/-- A caller procedure whose body is `CallProcedure 1`. -/
def callerProc : ProcedureValue :=
  { name := some "caller", targetId := 0, paramCount := 0, locals := [],
    bytecode := [.op .CallProcedure, .imm 1], warp := false }

/-- A callee with one parameter and two local slots. -/
def calleeProc : ProcedureValue :=
  { name := some "callee", targetId := 0, paramCount := 1,
    locals := [some "arg", some "tmp"], bytecode := [.op .Return], warp := false }

/-- A program holding `callerProc` (id 0) and `calleeProc` (id 1). -/
def callProgram : Program :=
  { constants := [], globalVars := [], procedures := [callerProc, calleeProc],
    events := [], triggers := [], targets := [[]], taskQueue := [], sleepers := [] }

/-- A task about to execute `CallProcedure 1` with two operands pushed. -/
def callTask : Task :=
  { procId := 0, location := 0, scopes := [[]],
    stack := [.number 7, .string "x"], complete := false, wakeTime := 0 }

/-- A program with one zero-parameter handler (`yieldProc`) registered for
`OnStart`, plus a one-parameter procedure (`calleeProc`, id 1). -/
def handlerProgram : Program :=
  { constants := [], globalVars := [], procedures := [yieldProc, calleeProc],
    events := [], triggers := [(.onStart, [0])], targets := [[]],
    taskQueue := [], sleepers := [] }

/-- Codegen context with a single variable `"v"` and no text constants. -/
def vTarget : TargetCtx := { varIds := ["v"], textConsts := [] }

/-- The warp-suppression scenario body: `repeat 3 { SetVar v ← 1 }`. -/
def repeatSetBody : List Blk :=
  [.repeatB (.prim (.num 3)) [.setvar "v" (.prim (.num 1))]]

/-- A fresh non-warp compiler over `vTarget`. -/
def plainCompiler : Compiler := Compiler.init vTarget false 0

/-- A fresh warp (`suppress_yields`) compiler over `vTarget`, exactly what
`ScratchProject::compile` builds for a procedure whose prototype has
`warp = true`. -/
def warpCompiler : Compiler := Compiler.init vTarget true 0

/-- The compiler's output for the warp scenario (`repeatSetBody` with
`warp = true`). -/
def warpScenarioResult : Compiler :=
  (compileScript vTarget true 0 repeatSetBody).getD warpCompiler

/-- A procedure whose body is `Sleep; Return`. -/
def sleepProc : ProcedureValue :=
  { name := some "sleeper", targetId := 0, paramCount := 0, locals := [],
    bytecode := [.op .Sleep, .op .Return], warp := false }

/-- A program holding only `sleepProc`. -/
def sleepProgram : Program :=
  { constants := [], globalVars := [], procedures := [sleepProc], events := [],
    triggers := [], targets := [[]], taskQueue := [], sleepers := [] }

/-- A task about to execute `Sleep` with `2` (seconds) on the stack. -/
def sleepTask : Task :=
  { procId := 0, location := 0, scopes := [[]], stack := [.number 2],
    complete := false, wakeTime := 0 }

/-- A procedure whose body is `ChangeVar 0; Return`. -/
def changeVarProc : ProcedureValue :=
  { name := some "changer", targetId := 0, paramCount := 0, locals := [],
    bytecode := [.op .ChangeVar, .imm 0, .op .Return], warp := false }

/-- A program with one global variable `v = 10` and `changeVarProc`. -/
def changeVarProgram : Program :=
  { constants := [], globalVars := [{ name := "v", value := .number 10 }],
    procedures := [changeVarProc], events := [], triggers := [], targets := [[]],
    taskQueue := [], sleepers := [] }

/-- A task about to execute `ChangeVar 0` with the offset `5` pushed. -/
def changeVarTask : Task :=
  { procId := 0, location := 0, scopes := [[]], stack := [.number 5],
    complete := false, wakeTime := 0 }

/-- `plainCompiler` after claiming its first temporary local. -/
def c4Claimed : Compiler := { plainCompiler with locals := [false] }

/-- `c4Claimed` after pushing the TIMES input `0.0` (a `PushZero`). -/
def c4Pushed : Compiler := c4Claimed.emit [.op .PushZero]

/-- The compiler state after the repeat prologue and the (empty) substack
of the witness instance: head, comparison, placeholder jump, decrement and
the empty-substack `Yield`. -/
def c4Body : Compiler :=
  ((((c4Pushed.emit [.op .SetLocal, .imm 0]).emit
    [.op .PushLocal, .imm 0, .op .PushZero, .op .GreaterThan]).emit
    [.op .JumpIfFalse, .imm u32Max]).emit [.op .DecLocal, .imm 0]).emit [.op .Yield]

/-! ## Compiler emission lemmas

`CompShape c c'` records what a lowering step does to the compiler state:
the warp flag, the parameter count and the target context never change, the
output buffer only grows (code already emitted is never rewritten across
step boundaries — label patching stays inside the emitting block's own
region), and under warp the step appends no `Yield`. -/

/-- Structural invariant of one compiler step from `c` to `c'`. -/
def CompShape (c c' : Compiler) : Prop :=
  c'.suppressYields = c.suppressYields ∧
  c'.numProcParams = c.numProcParams ∧
  c'.target = c.target ∧
  ∃ e, c'.data = c.data ++ e ∧ (c.suppressYields = true → countYields e = 0)

/-- Replacing the eighth word of a ten-word-headed buffer (the
`PlaceholderLabel` slot of the `control_repeat` lowering). -/
theorem set_seventh (w0 w1 w2 w3 w4 w5 w6 w7 w8 w9 : Word) (rest : List Word)
    (v : Word) :
    (w0 :: w1 :: w2 :: w3 :: w4 :: w5 :: w6 :: w7 :: w8 :: w9 :: rest).set 7 v =
      w0 :: w1 :: w2 :: w3 :: w4 :: w5 :: w6 :: v :: w8 :: w9 :: rest := rfl

theorem CompShape.refl (c : Compiler) : CompShape c c :=
  ⟨rfl, rfl, rfl, [], by simp, fun _ => rfl⟩

theorem CompShape.trans {c c' c'' : Compiler}
    (h1 : CompShape c c') (h2 : CompShape c' c'') : CompShape c c'' := by
  obtain ⟨s1, p1, t1, e1, d1, y1⟩ := h1
  obtain ⟨s2, p2, t2, e2, d2, y2⟩ := h2
  refine ⟨s2.trans s1, p2.trans p1, t2.trans t1, e1 ++ e2, ?_, ?_⟩
  · rw [d2, d1, List.append_assoc]
  · intro hs
    rw [countYields, List.count_append]
    have := y2 (s1.trans hs)
    have := y1 hs
    simp [countYields] at *
    omega

theorem countYields_append (a b : List Word) :
    countYields (a ++ b) = countYields a + countYields b :=
  List.count_append ..

/-- Appending non-`Yield` words is a valid step. -/
theorem CompShape.emit (c : Compiler) (ws : List Word)
    (h : countYields ws = 0) : CompShape c (c.emit ws) :=
  ⟨rfl, rfl, rfl, ws, rfl, fun _ => h⟩

/-- `build_yield` is a valid step: under warp it emits nothing. -/
theorem CompShape.buildYield (c : Compiler) : CompShape c c.buildYield := by
  unfold Compiler.buildYield
  split
  · exact CompShape.refl c
  · next hs =>
    exact ⟨rfl, rfl, rfl, [.op .Yield], rfl,
      fun h => absurd h hs⟩

/-- `claim_local` only touches the local table. -/
theorem claimLocal_snd_eq (c : Compiler) :
    (c.claimLocal).2.data = c.data ∧
    (c.claimLocal).2.suppressYields = c.suppressYields ∧
    (c.claimLocal).2.numProcParams = c.numProcParams ∧
    (c.claimLocal).2.target = c.target := by
  unfold Compiler.claimLocal
  split <;> exact ⟨rfl, rfl, rfl, rfl⟩

theorem CompShape.claimLocal (c : Compiler) : CompShape c (c.claimLocal).2 := by
  obtain ⟨hd, hs, hp, ht⟩ := claimLocal_snd_eq c
  exact ⟨hs, hp, ht, [], by simp [hd], fun _ => rfl⟩

theorem CompShape.releaseLocal (c : Compiler) (i : ℕ) :
    CompShape c (c.releaseLocal i) :=
  ⟨rfl, rfl, rfl, [], by simp [Compiler.releaseLocal], fun _ => rfl⟩

/-- Overwriting any buffer slot with an immediate cannot add a `Yield`. -/
theorem countYields_set_imm_le (l : List Word) (i n : ℕ) :
    countYields (l.set i (.imm n)) ≤ countYields l := by
  induction l generalizing i with
  | nil => simp [countYields]
  | cons w rest ih =>
    cases i with
    | zero =>
      show countYields (.imm n :: rest) ≤ countYields (w :: rest)
      simp only [countYields, List.count_cons]
      have hne : (Word.imm n == Word.op Op.Yield) = false := rfl
      rw [hne]
      simp
    | succ j =>
      show countYields (w :: rest.set j (.imm n)) ≤ countYields (w :: rest)
      simp only [countYields, List.count_cons]
      have := ih j
      simp only [countYields] at this
      omega

/-- Setting a slot past a prefix leaves the prefix intact. -/
theorem set_append_of_le {α : Type} (a l : List α) (i : ℕ) (h : a.length ≤ i)
    (w : α) : (a ++ l).set i w = a ++ l.set (i - a.length) w := by
  induction a generalizing i with
  | nil => simp
  | cons x rest ih =>
    cases i with
    | zero => simp at h
    | succ j =>
      simp only [List.cons_append, List.set_cons_succ, List.length_cons]
      have heq : j - rest.length = j + 1 - (rest.length + 1) := by omega
      rw [ih j (Nat.le_of_succ_le_succ h), heq]

/-- Patching an immediate slot located past `c.data` is a valid step. -/
theorem CompShape.patch {c mid : Compiler} (h : CompShape c mid)
    (pos n : ℕ) (hpos : c.data.length ≤ pos) :
    CompShape c { mid with data := mid.data.set pos (.imm n) } := by
  obtain ⟨hs, hp, ht, e, hd, hy⟩ := h
  refine ⟨hs, hp, ht, e.set (pos - c.data.length) (.imm n), ?_, ?_⟩
  · rw [hd, set_append_of_le _ _ _ hpos]
  · intro hsup
    have := countYields_set_imm_le e (pos - c.data.length) n
    have := hy hsup
    omega

/-- `(c.emit a).emit b` merges into one emission. -/
theorem emit_emit (c : Compiler) (a b : List Word) :
    (c.emit a).emit b = c.emit (a ++ b) := by
  simp [Compiler.emit, List.append_assoc]

/-- Pushing a value input only appends to the buffer and never emits a
`Yield` (nor touches any other compiler field). -/
theorem compileInp_shape (i : Inp) : ∀ (c c' : Compiler),
    compileInp c i = some c' → ∃ e, c' = c.emit e ∧ countYields e = 0 := by
  induction i with
  | prim p =>
    intro c c' h
    cases p <;>
      simp only [compileInp, Compiler.buildPushPrim, Compiler.buildPushNum,
        Option.map_eq_some'] at h
    case text s =>
      obtain ⟨hdl, _, rfl⟩ := h
      exact ⟨_, rfl, by simp [countYields]⟩
    case varP id =>
      obtain ⟨hdl, _, rfl⟩ := h
      exact ⟨_, rfl, by simp [countYields]⟩
    case num q =>
      split at h <;> exact ⟨_, (Option.some_inj.mp h).symm, by simp [countYields]⟩
    case posnum q =>
      split at h <;> exact ⟨_, (Option.some_inj.mp h).symm, by simp [countYields]⟩
    case angle q =>
      split at h <;> exact ⟨_, (Option.some_inj.mp h).symm, by simp [countYields]⟩
    case integer n =>
      split at h <;> exact ⟨_, (Option.some_inj.mp h).symm, by simp [countYields]⟩
    case whole n =>
      split at h <;> exact ⟨_, (Option.some_inj.mp h).symm, by simp [countYields]⟩
    case eventP id => simp at h
  | joinB a b iha ihb =>
    intro c c' h
    simp only [compileInp] at h
    obtain ⟨c1, h1, h2⟩ := Option.bind_eq_some.mp h
    obtain ⟨c2, h3, h4⟩ := Option.bind_eq_some.mp h2
    obtain ⟨e1, rfl, y1⟩ := iha c c1 h1
    obtain ⟨e2, rfl, y2⟩ := ihb _ c2 h3
    refine ⟨e1 ++ e2 ++ [.op .CallBuiltin, .imm operatorJoinId],
      by rw [← Option.some_inj.mp h4, emit_emit, emit_emit, List.append_assoc], ?_⟩
    simp only [countYields_append, y1, y2]
    simp [countYields]

mutual

/-- Lowering one statement block is a valid compiler step: it only appends
to the buffer (patching stays inside its own region), preserves the warp
flag, the parameter count and the target context, and emits no `Yield`
under warp. -/
theorem compileBlk_shape (b : Blk) (c c' : Compiler)
    (h : compileBlk c b = some c') : CompShape c c' := by
  match b with
  | .say msg =>
    simp only [compileBlk] at h
    obtain ⟨c1, h1, h2⟩ := Option.bind_eq_some.mp h
    obtain ⟨e, rfl, y⟩ := compileInp_shape msg c c1 h1
    cases Option.some_inj.mp h2
    exact .trans (.emit c e y) (.emit _ _ (by simp [countYields]))
  | .setvar v value =>
    simp only [compileBlk] at h
    obtain ⟨hdl, hv, h2⟩ := Option.bind_eq_some.mp h
    obtain ⟨c1, h3, h4⟩ := Option.bind_eq_some.mp h2
    obtain ⟨e, rfl, y⟩ := compileInp_shape value c c1 h3
    cases Option.some_inj.mp h4
    exact .trans (.emit c e y)
      (.trans (.emit _ _ (by simp [countYields])) (.buildYield _))
  | .changevar v value =>
    simp only [compileBlk] at h
    obtain ⟨hdl, hv, h2⟩ := Option.bind_eq_some.mp h
    obtain ⟨c1, h3, h4⟩ := Option.bind_eq_some.mp h2
    obtain ⟨e, rfl, y⟩ := compileInp_shape value c c1 h3
    cases Option.some_inj.mp h4
    exact .trans (.emit c e y)
      (.trans (.emit _ _ (by simp [countYields])) (.buildYield _))
  | .forever sub =>
    simp only [compileBlk] at h
    obtain ⟨c1, h1, h2⟩ := Option.bind_eq_some.mp h
    have hs := compileSubstack_shape sub c c1 h1
    cases Option.some_inj.mp h2
    exact hs.trans (.emit _ _ (by simp [countYields]))
  | .wait dur =>
    simp only [compileBlk] at h
    obtain ⟨c1, h1, h2⟩ := Option.bind_eq_some.mp h
    obtain ⟨e, rfl, y⟩ := compileInp_shape dur c c1 h1
    cases Option.some_inj.mp h2
    exact .trans (.emit c e y) (.emit _ _ (by simp [countYields]))
  | .repeatB times sub =>
    simp only [compileBlk] at h
    rcases hcl : c.claimLocal with ⟨counter, c1⟩
    rw [hcl] at h
    obtain ⟨c2, h1, h2⟩ := Option.bind_eq_some.mp h
    obtain ⟨eT, rfl, yT⟩ := compileInp_shape times c1 c2 h1
    obtain ⟨c7, h3, h4⟩ := Option.bind_eq_some.mp h2
    have hsub := compileSubstack_shape sub _ c7 h3
    cases Option.some_inj.mp h4
    have hc1 : CompShape c c1 := by
      have := CompShape.claimLocal c
      rwa [hcl] at this
    have hc1data : c1.data = c.data := by
      have := (claimLocal_snd_eq c).1
      rwa [hcl] at this
    have hmid : CompShape c (((((c1.emit eT).emit [.op .SetLocal, .imm counter]).emit
        [.op .PushLocal, .imm counter, .op .PushZero, .op .GreaterThan]).emit
        [.op .JumpIfFalse, .imm u32Max]).emit [.op .DecLocal, .imm counter]) := by
      refine hc1.trans (.trans (.emit _ eT yT) (.trans (.emit _ _ (by simp [countYields]))
        (.trans (.emit _ _ (by simp [countYields]))
          (.trans (.emit _ _ (by simp [countYields])) (.emit _ _ (by simp [countYields]))))))
    have h8 : CompShape c (c7.emit
        [.op .Jump, .imm ((c1.emit eT).emit [.op .SetLocal, .imm counter]).data.length]) :=
      (hmid.trans hsub).trans (.emit _ _ (by simp [countYields]))
    have hpos : c.data.length ≤
        ((((c1.emit eT).emit [.op .SetLocal, .imm counter]).emit
          [.op .PushLocal, .imm counter, .op .PushZero, .op .GreaterThan]).data.length + 1) := by
      simp [Compiler.emit, hc1data]
      omega
    exact (CompShape.patch h8 _ _ hpos).trans (.releaseLocal _ counter)

/-- Lowering a list of blocks in order is a valid compiler step. -/
theorem compileBlkList_shape (bs : List Blk) (c c' : Compiler)
    (h : compileBlkList c bs = some c') : CompShape c c' := by
  match bs with
  | [] =>
    simp only [compileBlkList] at h
    cases Option.some_inj.mp h
    exact .refl c
  | b :: rest =>
    simp only [compileBlkList] at h
    obtain ⟨c1, h1, h2⟩ := Option.bind_eq_some.mp h
    exact (compileBlk_shape b c c1 h1).trans (compileBlkList_shape rest c1 c' h2)

/-- Lowering a substack is a valid compiler step. -/
theorem compileSubstack_shape (bs : List Blk) (c c' : Compiler)
    (h : compileSubstack c bs = some c') : CompShape c c' := by
  match bs with
  | [] =>
    simp only [compileSubstack] at h
    cases Option.some_inj.mp h
    exact .buildYield c
  | b :: rest =>
    simp only [compileSubstack] at h
    obtain ⟨c1, h1, h2⟩ := Option.bind_eq_some.mp h
    exact (compileBlk_shape b c c1 h1).trans (compileBlkList_shape rest c1 c' h2)

end

/-! ## Claim C2 — boolean/string round trip -/

/-- C2 counterexample: at `b = false` the round trip does **not** return
`b`.  `cast_string (Boolean false)` is `"false"`, and
`cast_boolean (String s)` is string non-emptiness, so the round trip yields
`true`, not `false`. -/
theorem boolRoundTrip_false_counterexample : boolRoundTrip false ≠ some false := by
  decide

/-- C2 (amended): coercing `Boolean b` to a string and that string back to
a boolean returns `true` for **every** `b`, because `"true"` and `"false"`
are both non-empty; the spec's law `to_boolean (to_string (Boolean b)) = b`
therefore holds exactly when `b = true`. -/
theorem boolRoundTrip_always_true : ∀ b : Bool, boolRoundTrip b = some true := by
  decide

/-! ## Claim C5 — `to_number` coercion -/

/-- C5: `cast_number` passes a Number through unchanged, parses a String as
a double falling back to `0.0` when parsing fails (in particular the empty
string yields `0.0`, not NaN), maps `true`/`false` to `1.0`/`0.0`, and
fails on every other tag (`ReturnLocation`, `Event`, `Procedure`), where
the source hits `unimplemented!` — the spec's `TypeCoercion` failure. -/
theorem castNumber_spec :
    (∀ q : ℚ, Value.castNumber (.number q) = some q) ∧
    (∀ s : String, Value.castNumber (.string s) = some ((parseNum s).getD 0)) ∧
    Value.castNumber (.string "") = some 0 ∧
    Value.castNumber (.boolean true) = some 1 ∧
    Value.castNumber (.boolean false) = some 0 ∧
    (∀ n : ℕ, Value.castNumber (.returnLocation n) = none) ∧
    (∀ i : ℕ, Value.castNumber (.event i) = none) ∧
    (∀ i : ℕ, Value.castNumber (.procedure i) = none) := by
  refine ⟨fun q => rfl, fun s => rfl, by decide, by decide, by decide,
    fun n => rfl, fun i => rfl, fun i => rfl⟩

/-! ## Claim C3 — `ChangeVar` and `Sleep` in the instruction set -/

/-- C3: the `Opcode` enum declared in `src/interpreter/opcode.rs` — the
VM's closed 32-bit instruction set — contains **no** `ChangeVar` and no
`Sleep` variant, even though the compiler and the interpreter both
reference `Opcode::ChangeVar` and `Opcode::Sleep` (so the snapshot cannot
compile as written).  The interpreter's arms for the two opcodes do have
exactly the claimed semantics: `ChangeVar` pops an offset and adds it to
the variable's value coerced to a number (`10 + 5 = 15` below), and `Sleep`
pops a number of seconds, sets the task's wake time to `now + seconds`
(`1 + 2 = 3` below) and yields. -/
theorem opcode_set_changeVar_sleep :
    ("ChangeVar" ∉ opcodeEnumVariants ∧ "Sleep" ∉ opcodeEnumVariants) ∧
    ("ChangeVar" ∈ referencedOpcodeNames ∧ "Sleep" ∈ referencedOpcodeNames) ∧
    (changeVarTask.runOpcode changeVarProgram tickClock =
      some ({ changeVarProgram with
                globalVars := [{ name := "v", value := .number 15 }] },
            { changeVarTask with location := 2, stack := [] }, tickClock, false)) ∧
    (sleepTask.runOpcode sleepProgram tickClock =
      some (sleepProgram,
            { sleepTask with location := 1, stack := [], wakeTime := 3 },
            { tickClock with next := 1 }, true)) := by
  refine ⟨by decide, by decide, ?_, ?_⟩
  · simp [Task.runOpcode, changeVarTask, changeVarProgram, changeVarProc,
      Value.castNumber, Task.readImm, Program.readVar, Program.setVar,
      Program.withVar]
    norm_num
  · simp [Task.runOpcode, sleepTask, sleepProgram, sleepProc, Value.castNumber,
      Clk.now, tickClock]
    norm_num

/-! ## Claim C10 — dispatch of an unregistered trigger -/

/-- C10: dispatching a trigger with no entry in the triggers map is a
silent no-op — no tasks are enqueued, nothing fails, and the entire
program state (task queue, sleeper heap and all) and the clock are returned
unchanged. -/
theorem dispatch_unknown_trigger_noop (p : Program) (clk : Clk) (trigger : Trigger)
    (h : p.triggers.lookup trigger = none) :
    p.dispatch clk trigger = some (p, clk) := by
  simp [Program.dispatch, h, Program.dispatch.go]

/-- C10 witness: `callProgram` has an empty triggers map, and dispatching
`OnStart` into it returns the program and clock untouched. -/
theorem dispatch_unknown_trigger_noop_witness :
    callProgram.triggers.lookup .onStart = none ∧
    callProgram.dispatch tickClock .onStart = some (callProgram, tickClock) :=
  ⟨rfl, dispatch_unknown_trigger_noop callProgram tickClock .onStart rfl⟩

/-! ## Claim C4 — the `control_repeat` lowering -/

/-- C4: lowering `control_repeat` emits exactly the claimed sequence.
Starting from compiler `c`: a temporary local `counter` is claimed
(`hcl`); the TIMES input is pushed (`h1`, emitting `eT`, so `SetLocal`
starts at offset `c2.data.length`); the loop-start label `L` is
`c2.data.length + 2` (right after `SetLocal counter`); the comparison
`counter > 0` is `PushLocal counter; PushZero; GreaterThan`;
`JumpIfFalse` targets the placeholder, later patched to the end offset
`c2.data.length + 12 + eS.length` (the offset just past the back-jump);
`DecLocal counter`; the SUBSTACK lowering emits `eS` (`h2`, `heS`);
`Jump L`; and finally the local is released
(`locals := c7.locals.set counter true`). -/
theorem repeat_lowering (c c2 c7 : Compiler) (times : Inp) (sub : List Blk)
    (counter : ℕ) (c1 : Compiler) (eS : List Word)
    (hcl : c.claimLocal = (counter, c1))
    (h1 : compileInp c1 times = some c2)
    (h2 : compileSubstack ((((c2.emit [.op .SetLocal, .imm counter]).emit
        [.op .PushLocal, .imm counter, .op .PushZero, .op .GreaterThan]).emit
        [.op .JumpIfFalse, .imm u32Max]).emit [.op .DecLocal, .imm counter]) sub = some c7)
    (heS : c7.data = c2.data ++ [.op .SetLocal, .imm counter, .op .PushLocal, .imm counter,
        .op .PushZero, .op .GreaterThan, .op .JumpIfFalse, .imm u32Max,
        .op .DecLocal, .imm counter] ++ eS) :
    compileBlk c (.repeatB times sub) = some
      { c7 with
        data := c2.data ++ [.op .SetLocal, .imm counter] ++
          [.op .PushLocal, .imm counter, .op .PushZero, .op .GreaterThan] ++
          [.op .JumpIfFalse, .imm (c2.data.length + 12 + eS.length)] ++
          [.op .DecLocal, .imm counter] ++ eS ++
          [.op .Jump, .imm (c2.data.length + 2)],
        locals := c7.locals.set counter true } := by
  simp only [compileBlk]
  rw [hcl]
  simp only [Compiler.emit, List.append_assoc, List.cons_append, List.nil_append] at h2
  simp only [h1, Compiler.emit, List.append_assoc, List.cons_append, List.nil_append,
    Option.bind_eq_bind, Option.some_bind, h2, Option.some_inj]
  simp only [Compiler.releaseLocal, Compiler.mk.injEq]
  refine ⟨?_, trivial, trivial, trivial, trivial⟩
  have hL : (c2.data ++ [Word.op .SetLocal, .imm counter]).length =
      c2.data.length + 2 := by simp
  have hidx : (c2.data ++ [Word.op .SetLocal, .imm counter, .op .PushLocal,
      .imm counter, .op .PushZero, .op .GreaterThan]).length + 1 =
      c2.data.length + 7 := by simp
  have hV : ((c2.data ++ [Word.op .SetLocal, .imm counter, .op .PushLocal,
      .imm counter, .op .PushZero, .op .GreaterThan, .op .JumpIfFalse,
      .imm u32Max, .op .DecLocal, .imm counter] ++ eS) ++
      [Word.op .Jump, .imm (c2.data.length + 2)]).length =
      c2.data.length + 12 + eS.length := by
    simp
    omega
  rw [heS, hL, hidx, hV]
  simp only [List.append_assoc, List.cons_append, List.nil_append]
  rw [set_append_of_le c2.data _ _ (by omega)]
  rw [show c2.data.length + 7 - c2.data.length = 7 from by omega]
  rw [set_seventh]

/-- C4 witness: `repeat 0.0 { }` lowered from the fresh non-warp compiler.
The temporary local is slot `0`, the TIMES push is a single `PushZero`
(offset 1, so `L = 3`), the empty substack contributes one `Yield`
(`eS = [Yield]`), and the placeholder is patched to `14`
(`= 1 + 12 + 1`), the offset just past the back-jump. -/
theorem repeat_lowering_witness :
    plainCompiler.claimLocal = (0, c4Claimed) ∧
    compileInp c4Claimed (.prim (.num 0)) = some c4Pushed ∧
    compileSubstack ((((c4Pushed.emit [.op .SetLocal, .imm 0]).emit
      [.op .PushLocal, .imm 0, .op .PushZero, .op .GreaterThan]).emit
      [.op .JumpIfFalse, .imm u32Max]).emit [.op .DecLocal, .imm 0]) [] =
      some c4Body ∧
    c4Body.data = c4Pushed.data ++ [.op .SetLocal, .imm 0, .op .PushLocal, .imm 0,
      .op .PushZero, .op .GreaterThan, .op .JumpIfFalse, .imm u32Max,
      .op .DecLocal, .imm 0] ++ [.op .Yield] ∧
    compileBlk plainCompiler (.repeatB (.prim (.num 0)) []) = some
      { c4Body with
        data := c4Pushed.data ++ [.op .SetLocal, .imm 0] ++
          [.op .PushLocal, .imm 0, .op .PushZero, .op .GreaterThan] ++
          [.op .JumpIfFalse, .imm (c4Pushed.data.length + 12 + [Word.op .Yield].length)] ++
          [.op .DecLocal, .imm 0] ++ [.op .Yield] ++
          [.op .Jump, .imm (c4Pushed.data.length + 2)],
        locals := c4Body.locals.set 0 true } :=
  ⟨by decide, by decide, by decide, by decide,
   repeat_lowering plainCompiler c4Pushed c4Body (.prim (.num 0)) [] 0 c4Claimed
     [.op .Yield] (by decide) (by decide) (by decide) (by decide)⟩

/-! ## Claim C1 — the `CallProcedure` calling convention -/

/-- C1: executing `CallProcedure procId` with at least `param_count`
operands available resolves the callee, pops `param_count` values in pop
order into the first `param_count` locals (the last-pushed argument — the
top of the stack — becomes local 0), fills the remaining locals of the new
scope with the default value (the empty string), pushes
`ReturnLocation(current_ip)` (the instruction pointer just past the
`CallProcedure` immediate, `t.location + 2`) and then the caller's
procedure handle onto the operand stack, sets the instruction pointer to
0, switches the current procedure to the callee, pushes the new locals
scope — and does not yield.  The program and the clock are untouched. -/
theorem callProcedure_installs_frame (p : Program) (t : Task) (clk : Clk)
    (caller callee : ProcedureValue) (procId : ℕ)
    (hcaller : p.procedures[t.procId]? = some caller)
    (hop : caller.bytecode[t.location]? = some (.op .CallProcedure))
    (himm : caller.bytecode[t.location + 1]? = some (.imm procId))
    (hcallee : p.procedures[procId]? = some callee)
    (hstack : callee.paramCount ≤ t.stack.length) :
    t.runOpcode p clk = some (p,
      { t with
          procId := procId,
          location := 0,
          scopes := (t.stack.take callee.paramCount ++
              List.replicate (callee.locals.length - callee.paramCount)
                Value.defaultValue) :: t.scopes,
          stack := Value.procedure t.procId ::
            Value.returnLocation (t.location + 2) ::
            t.stack.drop callee.paramCount },
      clk, false) := by
  simp only [Task.runOpcode, Task.readImm, hcaller, hop, himm, hcallee,
    Option.bind_eq_bind, Option.some_bind, hstack, if_pos]

/-- C1 witness: `callTask` (stack `[7, "x"]`, caller id 0) executing
`CallProcedure 1` in `callProgram`: the callee's scope becomes
`[7, ""]` (argument then default), the stack becomes
`[Procedure 0, ReturnLocation 2, "x"]`, the instruction pointer drops to
0, and no yield happens. -/
theorem callProcedure_installs_frame_witness :
    callProgram.procedures[callTask.procId]? = some callerProc ∧
    callerProc.bytecode[callTask.location]? = some (.op .CallProcedure) ∧
    callerProc.bytecode[callTask.location + 1]? = some (.imm 1) ∧
    callProgram.procedures[(1 : ℕ)]? = some calleeProc ∧
    calleeProc.paramCount ≤ callTask.stack.length ∧
    callTask.runOpcode callProgram tickClock = some (callProgram,
      { callTask with
          procId := 1,
          location := 0,
          scopes := (callTask.stack.take calleeProc.paramCount ++
              List.replicate (calleeProc.locals.length - calleeProc.paramCount)
                Value.defaultValue) :: callTask.scopes,
          stack := Value.procedure callTask.procId ::
            Value.returnLocation (callTask.location + 2) ::
            callTask.stack.drop calleeProc.paramCount },
      tickClock, false) :=
  ⟨rfl, rfl, rfl, rfl, by decide,
   callProcedure_installs_frame callProgram callTask tickClock callerProc calleeProc 1
     rfl rfl rfl rfl (by decide)⟩

/-! ## Claim C6 — warp suppresses every yield -/

/-- C6: compiling any script with `warp = true` (the compiler's
`suppress_yields` flag, set by `ScratchProject::compile` from the
prototype's warp flag) produces bytecode with **zero** `Yield` opcodes;
compiling the scenario body `repeat 3 { SetVar v ← 1 }` with
`warp = false` leaves the statement lowering's `Yield` present (exactly
one — `data_setvariableto`'s). -/
theorem warp_suppresses_yields :
    (∀ (tgt : TargetCtx) (n : ℕ) (blocks : List Blk) (c' : Compiler),
      compileScript tgt true n blocks = some c' → countYields c'.data = 0) ∧
    (compileScript vTarget false 0 repeatSetBody).map
        (fun c => countYields c.data) = some 1 := by
  constructor
  · intro tgt n blocks c' h
    simp only [compileScript] at h
    obtain ⟨c1, hsub, hret⟩ := Option.bind_eq_some.mp h
    obtain ⟨hsup, _, _, e, hd, hy⟩ := compileSubstack_shape blocks _ c1 hsub
    cases Option.some_inj.mp hret
    show countYields (c1.data ++ [.op .Return]) = 0
    rw [countYields_append, hd]
    have he : countYields e = 0 := hy rfl
    simp [Compiler.init, countYields]
    exact he
  · decide

/-- C6 witness: the warp scenario itself, through the universal half of
the theorem: `repeat 3 { SetVar v ← 1 }` compiled with `warp = true`
contains zero `Yield` opcodes. -/
theorem warp_suppresses_yields_witness :
    compileScript vTarget true 0 repeatSetBody = some warpScenarioResult ∧
    countYields warpScenarioResult.data = 0 :=
  ⟨by decide, warp_suppresses_yields.1 vTarget 0 repeatSetBody warpScenarioResult
    (by decide)⟩

/-! ## Claim C7 — substack lowering -/

/-- C7 counterexample: lowering an empty substack does **not** always emit
a single `Yield` — in a warp compiler (`suppress_yields = true`, as built
for every warp procedure) it emits nothing at all. -/
theorem empty_substack_no_yield_under_warp :
    ¬ ((compileSubstack warpCompiler []).map (fun c => countYields c.data) =
        some 1) := by
  decide

/-- C7 (amended): lowering a substack compiles each of its blocks in
order (the head block first, then the rest; output already emitted is only
ever appended to), and lowering an empty substack emits a single `Yield`
when yields are not suppressed — under warp the yield is suppressed and
nothing is emitted. -/
theorem substack_lowering :
    (∀ c : Compiler, c.suppressYields = false →
      compileSubstack c [] = some (c.emit [.op .Yield])) ∧
    (∀ c : Compiler, c.suppressYields = true → compileSubstack c [] = some c) ∧
    (∀ (c : Compiler) (b : Blk) (rest : List Blk),
      compileSubstack c (b :: rest) =
        (compileBlk c b).bind fun c1 => compileBlkList c1 rest) ∧
    (∀ (c c' : Compiler) (bs : List Blk), compileSubstack c bs = some c' →
      ∃ e, c'.data = c.data ++ e) := by
  refine ⟨?_, ?_, ?_, ?_⟩
  · intro c h
    simp [compileSubstack, Compiler.buildYield, h]
  · intro c h
    simp [compileSubstack, Compiler.buildYield, h]
  · intro c b rest
    simp [compileSubstack]
  · intro c c' bs h
    obtain ⟨_, _, _, e, hd, _⟩ := compileSubstack_shape bs c c' h
    exact ⟨e, hd⟩

/-- C7 witness: the non-warp compiler really emits exactly one `Yield` for
the empty substack. -/
theorem substack_lowering_witness :
    plainCompiler.suppressYields = false ∧
    compileSubstack plainCompiler [] = some (plainCompiler.emit [.op .Yield]) :=
  ⟨rfl, substack_lowering.1 plainCompiler rfl⟩

/-! ## Claim C9 — tasks are rooted in zero-parameter procedures -/

/-- Unfolding of a successful `Task::new`. -/
theorem taskNew_some_iff (p : Program) (id : ℕ) (now : ℚ) (t : Task) :
    p.taskNew id now = some t ↔
      ∃ proc, p.procedures[id]? = some proc ∧ proc.paramCount = 0 ∧
        t = { procId := id, location := 0,
              scopes := [List.replicate proc.locals.length Value.defaultValue],
              stack := [], complete := false, wakeTime := now } := by
  unfold Program.taskNew
  cases hg : p.procedures[id]? with
  | none => simp
  | some proc =>
    by_cases hp : proc.paramCount = 0
    · simp [hp, eq_comm]
    · simp [hp]

/-- Invariants of the handler loop inside `Program::dispatch`: procedures
are untouched, exactly one task is appended per handler, and every task in
the resulting queue either was already queued or roots a zero-parameter
procedure. -/
theorem dispatch_go_spec (hs : List ℕ) (p : Program) (clk : Clk)
    (p' : Program) (clk' : Clk)
    (h : Program.dispatch.go p clk hs = some (p', clk')) :
    p'.procedures = p.procedures ∧
    p'.taskQueue.length = p.taskQueue.length + hs.length ∧
    ∀ t ∈ p'.taskQueue, t ∈ p.taskQueue ∨
      ∃ proc, p.procedures[t.procId]? = some proc ∧ proc.paramCount = 0 := by
  induction hs generalizing p clk with
  | nil =>
    simp only [Program.dispatch.go, Option.some_inj, Prod.mk.injEq] at h
    obtain ⟨rfl, rfl⟩ := h
    exact ⟨rfl, by simp, fun t ht => Or.inl ht⟩
  | cons hd rest ih =>
    simp only [Program.dispatch.go, Clk.now] at h
    obtain ⟨t0, hnew, hgo⟩ := Option.bind_eq_some.mp h
    obtain ⟨proc, hproc, hzero, rfl⟩ := (taskNew_some_iff ..).mp hnew
    obtain ⟨h1, h2, h3⟩ := ih _ _ hgo
    refine ⟨h1, ?_, fun t ht => ?_⟩
    · simp only [List.length_append, List.length_cons, List.length_nil] at h2 ⊢
      omega
    · rcases h3 t ht with hmem | ⟨proc', hproc', hz'⟩
      · rcases List.mem_append.mp hmem with hq | hnewt
        · exact Or.inl hq
        · obtain rfl := List.mem_singleton.mp hnewt
          exact Or.inr ⟨proc, hproc, hzero⟩
      · exact Or.inr ⟨proc', hproc', hz'⟩

/-- C9: `Task::new` succeeds only on a procedure with `param_count = 0`
(the `assert_eq!` fires otherwise, modelled as `none`), and every task
`dispatch` enqueues — one fresh task per registered handler of the trigger,
appended in registration order — roots a zero-parameter procedure; hence a
procedure with parameters can never be the root of a task. -/
theorem task_roots_have_no_params :
    (∀ (p : Program) (id : ℕ) (now : ℚ) (t : Task), p.taskNew id now = some t →
      ∃ proc, p.procedures[id]? = some proc ∧ proc.paramCount = 0 ∧
        t.procId = id ∧ t.location = 0 ∧ t.stack = [] ∧ t.complete = false ∧
        t.scopes = [List.replicate proc.locals.length Value.defaultValue]) ∧
    (∀ (p : Program) (id : ℕ) (now : ℚ) (proc : ProcedureValue),
      p.procedures[id]? = some proc → proc.paramCount ≠ 0 →
      p.taskNew id now = none) ∧
    (∀ (p : Program) (clk : Clk) (trigger : Trigger) (p' : Program) (clk' : Clk),
      p.dispatch clk trigger = some (p', clk') →
      p'.taskQueue.length =
        p.taskQueue.length + ((p.triggers.lookup trigger).getD []).length ∧
      ∀ t ∈ p'.taskQueue, t ∈ p.taskQueue ∨
        ∃ proc, p.procedures[t.procId]? = some proc ∧ proc.paramCount = 0) := by
  refine ⟨?_, ?_, ?_⟩
  · intro p id now t h
    obtain ⟨proc, hg, hp, rfl⟩ := (taskNew_some_iff ..).mp h
    exact ⟨proc, hg, hp, rfl, rfl, rfl, rfl, rfl⟩
  · intro p id now proc hg hp
    simp [Program.taskNew, hg, hp]
  · intro p clk trigger p' clk' h
    obtain ⟨_, h2, h3⟩ := dispatch_go_spec _ _ _ _ _ h
    exact ⟨h2, h3⟩

/-- C9 witness: in `handlerProgram`, creating a task for the
one-parameter procedure (id 1) fails, and dispatching `OnStart` enqueues
exactly the one zero-parameter handler. -/
theorem task_roots_have_no_params_witness :
    (handlerProgram.procedures[1]? = some calleeProc ∧
      calleeProc.paramCount ≠ 0 ∧ handlerProgram.taskNew 1 5 = none) ∧
    (handlerProgram.taskNew 0 5 =
      some { procId := 0, location := 0, scopes := [[]], stack := [],
             complete := false, wakeTime := 5 } ∧
      (5 : ℚ) = 5) :=
  ⟨⟨rfl, by decide,
    task_roots_have_no_params.2.1 handlerProgram 1 5 calleeProc rfl (by decide)⟩,
   by decide, rfl⟩

/-! ## Claim C8 — frame priorities and the sleeper key -/

/-- C8: the frame-unique `next_priority` timestamp that `run_frame` writes
into a picked-up task is **not** the key under which the task reaches the
sleeper heap.  `Task::run_until_yield` begins by overwriting `wake_time`
with `Instant::now()`, so the `wake_time ← next_priority` store in
`run_frame` is dead and the sleeper key is the real pickup time instead.
Concretely: with the strictly increasing clock `tickClock`
(`frame_start = 1`, so the first task's `next_priority` is exactly `1`),
the task lands in the sleeper heap keyed `3` — the third `Instant::now()`
reading, taken at the start of its slice — and not `1`. -/
theorem runFrame_priority_overwritten :
    (Program.runFrame 10 oneYielderProgram tickClock).map
        (fun r => (r.1.sleepers.map Task.wakeTime, r.1.taskQueue.length)) =
      some ([3], 0) ∧
    tickClock.stream 0 = 1 ∧ ((3 : ℚ) ≠ 1) := by
  refine ⟨by decide, by norm_num [tickClock], by norm_num⟩

end ScratchVM
